import Mathlib

/-!
# Verification of the yogen-nikki backend core

Shallow embedding of the TypeScript backend (entities, domain services,
repositories, usecase interactors, controller mapping) and proofs about it.

Modelling conventions:
* Timestamps are `Nat` Unix seconds (the server runs after the epoch); the
  time zone offset is taken to be zero (a fixed-offset zone with no DST), so
  `Date#getDay` of a time `t` is `(t / 86400 + 4) % 7` (the epoch fell on a
  Thursday, day 4).
* JavaScript reference semantics matter for the in-memory repositories: the
  JS `Map` stores references to mutable `Post` objects, and `findById`
  returns the stored reference itself.  We model the object store as an
  explicit heap (`List PostEntity`, a `Ref` being an index into it) and the
  `Map` as an insertion-ordered association list from keys to references.
* Fallible operations return `Except String` (a thrown `Error(msg)` is
  `.error msg`); `null` is `Option.none`.
* The MongoDB-backed repositories are modelled over the collection contents:
  a collection is a `List` of documents and `findOne`/`find` are searches in
  that list.
* Nondeterministic inputs of the code (generated UUIDs, the current time)
  are passed as explicit parameters.
-/

structure PersonalityClass where
  outdoor : Bool
  extrovert : Bool
deriving DecidableEq

structure UserDTO where
  id : String
  personalityClass : PersonalityClass
deriving DecidableEq

/-- The `PostEntity` record (revision `part_000`): `image` is nullable. -/
structure PostEntity where
  id : String
  title : String
  description : String
  image : Option String
  deadline : Nat
  owner : String
deriving DecidableEq

/-- The wire-facing `PostDTO`: `image` is always a string. -/
structure PostDTO where
  id : String
  title : String
  description : String
  image : String
  deadline : Nat
  owner : String
deriving DecidableEq

/-- `IMAGE.UNUPLOADED` placeholder URL (revision `part_000`). -/
def IMAGE.UNUPLOADED : String :=
  "https://firebasestorage.googleapis.com/v0/b/yogen-nikki.appspot.com/o/glitch-white-animation.gif?alt=media&token=5de1cffa-75b6-43d4-aa3e-b6c5c5762dcd"

/-- `IMAGE.FAILED` placeholder URL (revision `part_000`). -/
def IMAGE.FAILED : String :=
  "https://firebasestorage.googleapis.com/v0/b/yogen-nikki.appspot.com/o/glitch-red-animation.gif?alt=media&token=204a3011-869b-4a91-9365-ce83d59e765e"

/-- How a JS boolean renders inside `JSON.stringify`. -/
def jsBoolString : Bool → String
  | true => "true"
  | false => "false"

/-- `JSON.stringify({outdoor, extrovert})`: keys in insertion order. -/
def jsonStringifyPersonalityClass (pc : PersonalityClass) : String :=
  "\x7b\"outdoor\":" ++ jsBoolString pc.outdoor ++
    ",\"extrovert\":" ++ jsBoolString pc.extrovert ++ "\x7d"

/-- `PostService.getTitle` (revision `part_000`): embeds
`JSON.stringify(personalityClass)` in a template literal. -/
def PostService.getTitle (pc : PersonalityClass) : String :=
  "モックの値です(キャラクタクラス: " ++ jsonStringifyPersonalityClass pc ++ ")"

/-- What a plain JS object renders as inside a template literal. -/
def jsObjectDefaultString : String := "[object Object]"

/-- `PostService.getTitle` (revision `src/index.ts`): interpolates the
`personalityClass` object directly into the template literal, so it renders
as `[object Object]`. -/
def PostService.getTitleIndexRevision (_pc : PersonalityClass) : String :=
  "モックの値です(キャラクタクラス: " ++ jsObjectDefaultString ++ ")"

/-- Seconds in a civil day (fixed-offset time zone, no DST). -/
def SECONDS_PER_DAY : Nat := 86400

/-- JS `Date#getDay` of a Unix time (0 = Sunday, ..., 6 = Saturday). -/
def getDay (t : Nat) : Nat := (t / SECONDS_PER_DAY + 4) % 7

/-- date-fns `addDays`. -/
def addDays (t : Nat) (d : Nat) : Nat := t + d * SECONDS_PER_DAY

/-- date-fns `nextSunday`: `nextDay(date, 0)` computes
`delta = 0 - getDay(date)`, which is always `≤ 0`, hence adds
`7 - getDay(date)` days (the subtraction is exact since `getDay t < 7`). -/
def nextSunday (t : Nat) : Nat := addDays t (7 - getDay t)

/-- `PostService.getDeadline`:
`getUnixTime(add(nextSunday(new Date()), { days: 1 }))`, with the current
time `now` passed explicitly. -/
def PostService.getDeadline (now : Nat) : Nat := addDays (nextSunday now) 1

/-- `PostService.createPost` (revision `part_000`: `image` starts `null`).
The generated v4 UUID and the current time are explicit parameters. -/
def PostService.createPost (freshUuid : String) (now : Nat)
    (ownerId : String) (personalityClass : PersonalityClass) : PostEntity :=
  { id := freshUuid
    title := PostService.getTitle personalityClass
    description := ""
    deadline := PostService.getDeadline now
    image := none
    owner := ownerId }

/-- `Controller.postEntityToPostDTO`: `item.image ?? (isBefore(nowDate,
fromUnixTime(item.deadline)) ? IMAGE.UNUPLOADED : IMAGE.FAILED)`. -/
def Controller.postEntityToPostDTO (item : PostEntity) (nowDate : Nat) : PostDTO :=
  { id := item.id
    title := item.title
    description := item.description
    image := item.image.getD
      (if nowDate < item.deadline then IMAGE.UNUPLOADED else IMAGE.FAILED)
    deadline := item.deadline
    owner := item.owner }

/-- `MongoDBPostRepository.findById` over the contents of the `post`
collection: `findOne({id: postId})`, then `if (!result) throw new
Error("No such post")`. -/
def MongoDBPostRepository.findById (coll : List PostEntity) (postId : String) :
    Except String PostEntity :=
  match coll.find? (fun d => d.id == postId) with
  | none => .error "No such post"
  | some d => .ok d

/-- `MongoDBUserRepository.findById` over the contents of the `user`
collection: `findOne({id})`, then `if (!result) throw new
Error("No such user")`. -/
def MongoDBUserRepository.findById (coll : List UserDTO) (id : String) :
    Except String UserDTO :=
  match coll.find? (fun d => d.id == id) with
  | none => .error "No such user"
  | some d => .ok d

/-- `MongoDBPostRepository.findByOwnerId` over the contents of the `post`
collection: `find({owner: userId}).toArray()`; an empty result is returned
as an empty array, not an error. -/
def MongoDBPostRepository.findByOwnerId (coll : List PostEntity)
    (userId : String) : List PostEntity :=
  coll.filter (fun d => d.owner == userId)

/-- A reference to a mutable `Post` object: an index into the heap. -/
abbrev Ref := Nat

/-- `MemoryPostRepository` together with the JS heap of `Post` objects it
references.  `posts` models `Map<string, Post>`: an insertion-ordered list
of key/reference entries with unique keys. -/
structure MemoryPostRepository where
  heap : List PostEntity
  posts : List (String × Ref)
deriving DecidableEq

/-- Dereference a `Post` object (its `serialize()` view). -/
def MemoryPostRepository.deref (σ : MemoryPostRepository) (r : Ref) :
    Option PostEntity :=
  σ.heap[r]?

/-- JS `Map#get`: the value of the entry with the given key, if any. -/
def mapGet (m : List (String × Ref)) (k : String) : Option Ref :=
  (m.find? (fun e => e.1 == k)).map (fun e => e.2)

/-- JS `Map#set`: overwrite the value in place if the key is present
(keeping its position), otherwise append a new entry. -/
def mapSet (m : List (String × Ref)) (k : String) (v : Ref) :
    List (String × Ref) :=
  if m.any (fun e => e.1 == k) then
    m.map (fun e => if e.1 == k then (k, v) else e)
  else
    m ++ [(k, v)]

/-- `MemoryPostRepository.findById`: `this.posts.get(postId) ?? null`.
Returns the stored object reference itself (JS reference semantics). -/
def MemoryPostRepository.findById (σ : MemoryPostRepository)
    (postId : String) : Option Ref :=
  mapGet σ.posts postId

/-- `MemoryPostRepository.create`: allocates the new `Post` object on the
heap and `this.posts.set(newPost.getId(), newPost)`. -/
def MemoryPostRepository.create (σ : MemoryPostRepository)
    (post : PostEntity) : MemoryPostRepository :=
  { heap := σ.heap ++ [post]
    posts := mapSet σ.posts post.id σ.heap.length }

/-- `MemoryPostRepository.put`: `this.posts.set(post.getId(), post)`, where
`post.getId()` reads the (possibly mutated) object on the heap. -/
def MemoryPostRepository.put (σ : MemoryPostRepository) (r : Ref) :
    MemoryPostRepository :=
  match σ.heap[r]? with
  | some e => { σ with posts := mapSet σ.posts e.id r }
  | none => σ

/-- `MemoryPostRepository.findByOwnerId`: iterate the map entries in
insertion order and keep the posts whose `getOwner()` matches. -/
def MemoryPostRepository.findByOwnerId (σ : MemoryPostRepository)
    (ownerId : String) : List Ref :=
  σ.posts.filterMap (fun e =>
    match σ.heap[e.2]? with
    | some p => if p.owner == ownerId then some e.2 else none
    | none => none)

/-- `Post.changeImage`: in-place mutation of the object behind `r`. -/
def Post.changeImage (σ : MemoryPostRepository) (r : Ref) (image : String) :
    MemoryPostRepository :=
  match σ.heap[r]? with
  | some e => { σ with heap := σ.heap.set r { e with image := some image } }
  | none => σ

/-- `Post.changeDescription`: in-place mutation of the object behind `r`. -/
def Post.changeDescription (σ : MemoryPostRepository) (r : Ref)
    (description : String) : MemoryPostRepository :=
  match σ.heap[r]? with
  | some e =>
    { σ with heap := σ.heap.set r { e with description := description } }
  | none => σ

/-- The serialized posts stored in the repository, in map order. -/
def MemoryPostRepository.storedPosts (σ : MemoryPostRepository) :
    List PostEntity :=
  σ.posts.filterMap (fun e => σ.heap[e.2]?)

/-- Well-formedness of a memory repository state: every map entry
references a live heap object whose `id` is the entry's key, and map keys
are unique (a JS `Map` invariant). -/
def MemoryPostRepository.WF (σ : MemoryPostRepository) : Prop :=
  (∀ e ∈ σ.posts, σ.heap[e.2]?.map PostEntity.id = some e.1) ∧
    (σ.posts.map Prod.fst).Nodup

/-- `MemoryUserRepository`: users are never mutated, so the map is modelled
directly as key/value entries. -/
def MemoryUserRepository.findById (users : List (String × UserDTO))
    (id : String) : Option UserDTO :=
  (users.find? (fun e => e.1 == id)).map (fun e => e.2)

structure AddNewPostUsecaseInput where
  userId : String
deriving DecidableEq

structure EditPostUsecaseInput where
  postId : String
  description : String
  image : String
deriving DecidableEq

/-- `AddNewPostUsecaseInteractor.handle` with the in-memory repositories:
look up the user, extract `personalityClass` (an object, hence truthy
whenever the user was found, so `!userPersonality` holds exactly when the
user is absent), create the post, persist it via `create`. -/
def AddNewPostUsecaseInteractor.handle (users : List (String × UserDTO))
    (σ : MemoryPostRepository) (freshUuid : String) (now : Nat)
    (input : AddNewPostUsecaseInput) :
    Except String (MemoryPostRepository × PostEntity) :=
  match (MemoryUserRepository.findById users input.userId).map
      (fun u => u.personalityClass) with
  | none => .error "User not found"
  | some userPersonality =>
    let post := PostService.createPost freshUuid now input.userId userPersonality
    .ok (σ.create post, post)

/-- `EditPostUsecaseInteractor.handle` with the in-memory repository:
look up the post (a reference to the stored object), mutate image and
description in place, `put` it, and return its serialized form. -/
def EditPostUsecaseInteractor.handle (σ : MemoryPostRepository)
    (input : EditPostUsecaseInput) :
    Except String (MemoryPostRepository × Option PostEntity) :=
  match σ.findById input.postId with
  | none => .error "Post not found"
  | some post =>
    let σ := Post.changeImage σ post input.image
    let σ := Post.changeDescription σ post input.description
    let σ := σ.put post
    .ok (σ, σ.deref post)

/-- `EditPostUsecaseInteractor.handle` when the final `put` rejects (an
injected repository failure): the steps before the `put` run exactly as in
the code, then the error propagates to the caller.  Returns the repository
state as it is left behind together with the surfaced error. -/
def EditPostUsecaseInteractor.handlePutFails (σ : MemoryPostRepository)
    (input : EditPostUsecaseInput) :
    MemoryPostRepository × Except String Unit :=
  match σ.findById input.postId with
  | none => (σ, .error "Post not found")
  | some post =>
    let σ := Post.changeImage σ post input.image
    let σ := Post.changeDescription σ post input.description
    (σ, .error "put failed")

/-- `GetUserTimelineUsecaseInteractor.handle` with the in-memory
repository: serialize each post returned by `findByOwnerId`. -/
def GetUserTimelineUsecaseInteractor.handle (σ : MemoryPostRepository)
    (userId : String) : List PostEntity :=
  (σ.findByOwnerId userId).filterMap (fun r => σ.deref r)

theorem mapGet_eq_some_mem {m : List (String × Ref)} {k : String} {r : Ref}
    (h : mapGet m k = some r) : (k, r) ∈ m := by
  unfold mapGet at h
  rcases hf : m.find? (fun e => e.1 == k) with _ | f
  · rw [hf] at h; cases h
  · rw [hf] at h
    have hmem := List.mem_of_find?_eq_some hf
    have hpred := List.find?_some hf
    simp only [Option.map_some'] at h
    simp only [beq_iff_eq] at hpred
    rcases f with ⟨fk, fv⟩
    cases h
    cases hpred
    exact hmem

theorem mapGet_eq_none_of_absent {m : List (String × Ref)} {k : String}
    (h : ∀ e ∈ m, e.1 ≠ k) : mapGet m k = none := by
  unfold mapGet
  rw [List.find?_eq_none.mpr]
  · rfl
  · intro e he
    simpa using h e he

theorem nodup_keys_entry_eq {m : List (String × Ref)}
    (hnd : (m.map Prod.fst).Nodup) {a b : String × Ref}
    (ha : a ∈ m) (hb : b ∈ m) (hk : a.1 = b.1) : a = b := by
  induction m with
  | nil => cases ha
  | cons hd tl ih =>
    simp only [List.map_cons, List.nodup_cons] at hnd
    rcases List.mem_cons.mp ha with ha1 | ha1 <;>
      rcases List.mem_cons.mp hb with hb1 | hb1
    · rw [ha1, hb1]
    · exact absurd (hk ▸ (List.mem_map_of_mem Prod.fst hb1)) (ha1 ▸ hnd.1)
    · exact absurd (hk ▸ (List.mem_map_of_mem Prod.fst ha1)) (hb1 ▸ hnd.1)
    · exact ih hnd.2 ha1 hb1

theorem mapSet_self_of_mem {m : List (String × Ref)} {k : String} {r : Ref}
    (hm : (k, r) ∈ m) (hnd : (m.map Prod.fst).Nodup) : mapSet m k r = m := by
  unfold mapSet
  rw [if_pos (List.any_eq_true.mpr ⟨(k, r), hm, by simp⟩)]
  have hcongr : ∀ e ∈ m, (if e.1 == k then (k, r) else e) = id e := by
    intro e he
    by_cases hek : e.1 = k
    · have : e = (k, r) := nodup_keys_entry_eq hnd he hm hek
      simp [this]
    · simp [hek]
  rw [List.map_congr_left hcongr, List.map_id]

theorem mapSet_fresh {m : List (String × Ref)} {k : String} {v : Ref}
    (h : ∀ e ∈ m, e.1 ≠ k) : mapSet m k v = m ++ [(k, v)] := by
  unfold mapSet
  rw [if_neg]
  simp only [List.any_eq_true, beq_iff_eq, not_exists, not_and]
  intro e he
  exact h e he

/-- C1 (amended): for the in-memory backend, `findById` on an id that is
not in the store returns `null` for both the User and the Post repository;
the document-store backend instead throws `No such post` / `No such user`
on an absent id. -/
theorem C1_findById_absent (σ : MemoryPostRepository)
    (users : List (String × UserDTO)) (pcoll : List PostEntity)
    (ucoll : List UserDTO) (postId uid : String)
    (hp : ∀ e ∈ σ.posts, e.1 ≠ postId) (hu : ∀ e ∈ users, e.1 ≠ uid)
    (hpc : ∀ d ∈ pcoll, d.id ≠ postId) (huc : ∀ d ∈ ucoll, d.id ≠ uid) :
    σ.findById postId = none ∧
    MemoryUserRepository.findById users uid = none ∧
    MongoDBPostRepository.findById pcoll postId = Except.error "No such post" ∧
    MongoDBUserRepository.findById ucoll uid = Except.error "No such user" := by
  refine ⟨mapGet_eq_none_of_absent hp, ?_, ?_, ?_⟩
  · unfold MemoryUserRepository.findById
    rw [List.find?_eq_none.mpr]
    · rfl
    · intro e he
      simpa using hu e he
  · unfold MongoDBPostRepository.findById
    rw [List.find?_eq_none.mpr]
    intro d hd
    simpa using hpc d hd
  · unfold MongoDBUserRepository.findById
    rw [List.find?_eq_none.mpr]
    intro d hd
    simpa using huc d hd

theorem C1_findById_absent_witness :
    (⟨[], []⟩ : MemoryPostRepository).findById "p0" = none ∧
    MemoryUserRepository.findById [] "u0" = none ∧
    MongoDBPostRepository.findById [] "p0" = Except.error "No such post" ∧
    MongoDBUserRepository.findById [] "u0" = Except.error "No such user" :=
  C1_findById_absent ⟨[], []⟩ [] [] [] "p0" "u0"
    (by decide) (by decide) (by decide) (by decide)

/-- C1 (counterexample to the claim as stated): on the document-store
backend, `findById` over an empty collection throws instead of returning
absence, for both the Post and the User repository. -/
theorem C1_counterexample :
    MongoDBPostRepository.findById ([] : List PostEntity) "p0" =
        Except.error "No such post" ∧
    MongoDBUserRepository.findById ([] : List UserDTO) "u0" =
        Except.error "No such user" :=
  ⟨rfl, rfl⟩

/-- C2 (amended): in the `part_000` revision the title deterministically
embeds `JSON.stringify(personalityClass)` and distinct personality classes
yield distinct titles; in the `src/index.ts` revision the object
interpolates as `[object Object]`, so every personality class yields the
same title. -/
theorem C2_getTitle_injective_part000 :
    (∀ p q : PersonalityClass,
      PostService.getTitle p = PostService.getTitle q → p = q) ∧
    (∀ p q : PersonalityClass,
      PostService.getTitleIndexRevision p = PostService.getTitleIndexRevision q) := by
  constructor
  · intro p q h
    rcases p with ⟨po, pe⟩
    rcases q with ⟨qo, qe⟩
    rcases po <;> rcases pe <;> rcases qo <;> rcases qe <;> revert h <;> decide
  · intro p q
    rfl

theorem C2_getTitle_injective_part000_witness :
    (⟨true, false⟩ : PersonalityClass) = ⟨true, false⟩ :=
  C2_getTitle_injective_part000.1 ⟨true, false⟩ ⟨true, false⟩ rfl

/-- C2 (counterexample to the claim as stated): in the `src/index.ts`
revision, two distinct personality classes yield the same title. -/
theorem C2_counterexample :
    PostService.getTitleIndexRevision ⟨true, true⟩ =
        PostService.getTitleIndexRevision ⟨false, false⟩ ∧
    (⟨true, true⟩ : PersonalityClass) ≠ ⟨false, false⟩ := by
  exact ⟨rfl, by decide⟩

/-- C3: the controller maps a post with a present stored image to that
image regardless of the current time; with an absent image it maps to the
unuploaded placeholder strictly before the deadline and to the failed
placeholder strictly after the deadline. -/
theorem C3_postEntityToPostDTO_image (item : PostEntity) (now : Nat) :
    (∀ s, item.image = some s →
      (Controller.postEntityToPostDTO item now).image = s) ∧
    (item.image = none → now < item.deadline →
      (Controller.postEntityToPostDTO item now).image = IMAGE.UNUPLOADED) ∧
    (item.image = none → item.deadline < now →
      (Controller.postEntityToPostDTO item now).image = IMAGE.FAILED) := by
  refine ⟨?_, ?_, ?_⟩
  · intro s hs
    simp [Controller.postEntityToPostDTO, hs]
  · intro hnone hlt
    simp [Controller.postEntityToPostDTO, hnone, hlt]
  · intro hnone hgt
    have : ¬ now < item.deadline := by omega
    simp [Controller.postEntityToPostDTO, hnone, this]

theorem C3_postEntityToPostDTO_image_witness :
    (Controller.postEntityToPostDTO ⟨"p", "t", "d", some "x", 100, "u"⟩ 100).image = "x" ∧
    (Controller.postEntityToPostDTO ⟨"p", "t", "d", none, 100, "u"⟩ 99).image =
        IMAGE.UNUPLOADED ∧
    (Controller.postEntityToPostDTO ⟨"p", "t", "d", none, 100, "u"⟩ 101).image =
        IMAGE.FAILED :=
  ⟨(C3_postEntityToPostDTO_image ⟨"p", "t", "d", some "x", 100, "u"⟩ 100).1 "x" rfl,
   (C3_postEntityToPostDTO_image ⟨"p", "t", "d", none, 100, "u"⟩ 99).2.1 rfl (by decide),
   (C3_postEntityToPostDTO_image ⟨"p", "t", "d", none, 100, "u"⟩ 101).2.2 rfl (by decide)⟩

/-- C10: at the exact boundary (current time equal to the deadline) a post
with an absent stored image maps to the failed placeholder — the
before-deadline comparison in the code is strict. -/
theorem C10_boundary_failed (item : PostEntity) (h : item.image = none) :
    (Controller.postEntityToPostDTO item item.deadline).image = IMAGE.FAILED := by
  simp [Controller.postEntityToPostDTO, h]

theorem C10_boundary_failed_witness :
    (Controller.postEntityToPostDTO ⟨"p", "t", "d", none, 100, "u"⟩ 100).image =
        IMAGE.FAILED :=
  C10_boundary_failed ⟨"p", "t", "d", none, 100, "u"⟩ rfl

/-- C6: `createPost` returns a post owned by the given owner, with empty
description, whose deadline is the Unix time one day after the next Sunday
strictly after the current time, hence strictly in the future. -/
theorem C6_createPost_fields (freshUuid ownerId : String)
    (pc : PersonalityClass) (now : Nat) :
    (PostService.createPost freshUuid now ownerId pc).owner = ownerId ∧
    (PostService.createPost freshUuid now ownerId pc).description = "" ∧
    (PostService.createPost freshUuid now ownerId pc).deadline =
        addDays (nextSunday now) 1 ∧
    now < nextSunday now ∧
    getDay (nextSunday now) = 0 ∧
    nextSunday now ≤ now + 7 * SECONDS_PER_DAY ∧
    now < (PostService.createPost freshUuid now ownerId pc).deadline := by
  refine ⟨rfl, rfl, rfl, ?_, ?_, ?_, ?_⟩ <;>
    simp only [PostService.createPost, PostService.getDeadline, nextSunday,
      addDays, getDay, SECONDS_PER_DAY] <;>
    omega

/-- C8: `findByOwnerId` returns exactly the posts whose owner field equals
the given owner (membership-exact, order unconstrained) and the empty list
— not an error — when no stored post has that owner, for both the
in-memory and the document-store backend. -/
theorem C8_findByOwnerId_exact (σ : MemoryPostRepository)
    (coll : List PostEntity) (ownerId : String) :
    (∀ p, p ∈ GetUserTimelineUsecaseInteractor.handle σ ownerId ↔
      p ∈ σ.storedPosts ∧ p.owner = ownerId) ∧
    (∀ p, p ∈ MongoDBPostRepository.findByOwnerId coll ownerId ↔
      p ∈ coll ∧ p.owner = ownerId) ∧
    ((∀ q ∈ σ.storedPosts, q.owner ≠ ownerId) →
      GetUserTimelineUsecaseInteractor.handle σ ownerId = []) ∧
    ((∀ q ∈ coll, q.owner ≠ ownerId) →
      MongoDBPostRepository.findByOwnerId coll ownerId = []) := by
  have hmem : ∀ p, p ∈ GetUserTimelineUsecaseInteractor.handle σ ownerId ↔
      p ∈ σ.storedPosts ∧ p.owner = ownerId := by
    intro p
    unfold GetUserTimelineUsecaseInteractor.handle
      MemoryPostRepository.findByOwnerId MemoryPostRepository.storedPosts
      MemoryPostRepository.deref
    simp only [List.mem_filterMap]
    constructor
    · rintro ⟨r, ⟨e, he, hmatch⟩, hd⟩
      split at hmatch
      case _ q hq =>
        split at hmatch
        case isTrue how =>
          cases hmatch
          rw [hq] at hd
          cases hd
          exact ⟨⟨e, he, hq⟩, by simpa using how⟩
        case isFalse _ => cases hmatch
      case _ => cases hmatch
    · rintro ⟨⟨e, he, hd⟩, how⟩
      refine ⟨e.2, ⟨e, he, ?_⟩, hd⟩
      rw [hd]
      simp [how]
  have hmongo : ∀ p, p ∈ MongoDBPostRepository.findByOwnerId coll ownerId ↔
      p ∈ coll ∧ p.owner = ownerId := by
    intro p
    simp [MongoDBPostRepository.findByOwnerId, List.mem_filter]
  refine ⟨hmem, hmongo, ?_, ?_⟩
  · intro habs
    rw [List.eq_nil_iff_forall_not_mem]
    intro p hp
    rcases (hmem p).mp hp with ⟨hmem2, how⟩
    exact habs p hmem2 how
  · intro habs
    rw [List.eq_nil_iff_forall_not_mem]
    intro p hp
    rcases (hmongo p).mp hp with ⟨hmem2, how⟩
    exact habs p hmem2 how

theorem C8_findByOwnerId_exact_witness :
    GetUserTimelineUsecaseInteractor.handle ⟨[], []⟩ "u0" = [] ∧
    MongoDBPostRepository.findByOwnerId ([] : List PostEntity) "u0" = [] :=
  ⟨(C8_findByOwnerId_exact ⟨[], []⟩ [] "u0").2.2.1 (by decide),
   (C8_findByOwnerId_exact ⟨[], []⟩ [] "u0").2.2.2 (by decide)⟩

theorem editPost_handle_ok (σ : MemoryPostRepository)
    (input : EditPostUsecaseInput) (r : Ref) (e : PostEntity)
    (hwf : σ.WF) (hr : σ.findById input.postId = some r)
    (he : σ.deref r = some e) :
    EditPostUsecaseInteractor.handle σ input =
      .ok (⟨σ.heap.set r { e with description := input.description, image := some input.image }, σ.posts⟩,
        some { e with description := input.description, image := some input.image }) := by
  have he' : σ.heap[r]? = some e := he
  have hlen : r < σ.heap.length := (List.getElem?_eq_some.mp he').1
  have hmem : (input.postId, r) ∈ σ.posts := mapGet_eq_some_mem hr
  have hid : e.id = input.postId := by
    have hwfe := hwf.1 _ hmem
    simp only at hwfe
    rw [he'] at hwfe
    simpa using hwfe
  have h1 : Post.changeImage σ r input.image =
      ⟨σ.heap.set r { e with image := some input.image }, σ.posts⟩ := by
    unfold Post.changeImage
    rw [he']
  have h2 : Post.changeDescription
      ⟨σ.heap.set r { e with image := some input.image }, σ.posts⟩ r
      input.description =
      ⟨σ.heap.set r { e with description := input.description, image := some input.image }, σ.posts⟩ := by
    unfold Post.changeDescription
    simp only [List.getElem?_set_self hlen, List.set_set]
  have h3 : MemoryPostRepository.put
      ⟨σ.heap.set r { e with description := input.description, image := some input.image }, σ.posts⟩ r =
      ⟨σ.heap.set r { e with description := input.description, image := some input.image }, σ.posts⟩ := by
    unfold MemoryPostRepository.put
    simp only [List.getElem?_set_self hlen]
    rw [show ({ e with description := input.description, image := some input.image } : PostEntity).id = input.postId from hid]
    rw [mapSet_self_of_mem hmem hwf.2]
  simp only [EditPostUsecaseInteractor.handle, hr, h1, h2, h3,
    MemoryPostRepository.deref, List.getElem?_set_self hlen]

/-- C4: EditPost fails on a missing post id; on a present id it returns,
and persists at the same reference, a post with the new description and
image and the original id, owner, title and deadline (the `with` update
touches no other field). -/
theorem C4_editPost (σ : MemoryPostRepository) (input : EditPostUsecaseInput)
    (hwf : σ.WF) :
    (σ.findById input.postId = none →
      EditPostUsecaseInteractor.handle σ input = .error "Post not found") ∧
    (∀ r e, σ.findById input.postId = some r → σ.deref r = some e →
      ∃ σ', EditPostUsecaseInteractor.handle σ input =
          .ok (σ', some { e with description := input.description, image := some input.image }) ∧
        σ'.findById input.postId = some r ∧
        σ'.deref r = some { e with description := input.description, image := some input.image }) := by
  constructor
  · intro hnone
    simp only [EditPostUsecaseInteractor.handle, hnone]
  · intro r e hr he
    have hlen : r < σ.heap.length := (List.getElem?_eq_some.mp he).1
    exact ⟨⟨σ.heap.set r { e with description := input.description, image := some input.image }, σ.posts⟩,
      editPost_handle_ok σ input r e hwf hr he, hr,
      List.getElem?_set_self hlen⟩

theorem C4_editPost_witness :
    ∃ σ' : MemoryPostRepository,
      EditPostUsecaseInteractor.handle
          ⟨[⟨"p1", "t", "old", none, 100, "u1"⟩], [("p1", 0)]⟩
          ⟨"p1", "new", "img"⟩ =
        .ok (σ', some ⟨"p1", "t", "new", some "img", 100, "u1"⟩) ∧
      σ'.findById "p1" = some 0 ∧
      σ'.deref 0 = some ⟨"p1", "t", "new", some "img", 100, "u1"⟩ :=
  (C4_editPost ⟨[⟨"p1", "t", "old", none, 100, "u1"⟩], [("p1", 0)]⟩
      ⟨"p1", "new", "img"⟩ ⟨by decide, by decide⟩).2 0
    ⟨"p1", "t", "old", none, 100, "u1"⟩ rfl rfl

/-- C9: EditPost performs no deadline check: for a stored post and any
current time, in particular any time strictly past the post deadline, the
edit succeeds and applies the new description and image. -/
theorem C9_editPost_ignores_deadline (σ : MemoryPostRepository)
    (input : EditPostUsecaseInput) (t : Nat) (r : Ref) (e : PostEntity)
    (hwf : σ.WF) (hr : σ.findById input.postId = some r)
    (he : σ.deref r = some e) (_hlate : e.deadline < t) :
    ∃ σ', EditPostUsecaseInteractor.handle σ input =
      .ok (σ', some { e with description := input.description, image := some input.image }) :=
  ⟨_, editPost_handle_ok σ input r e hwf hr he⟩

theorem C9_editPost_ignores_deadline_witness :
    ∃ σ' : MemoryPostRepository,
      EditPostUsecaseInteractor.handle
          ⟨[⟨"p2", "t", "old", none, 100, "u1"⟩], [("p2", 0)]⟩
          ⟨"p2", "late", "img"⟩ =
        .ok (σ', some ⟨"p2", "t", "late", some "img", 100, "u1"⟩) :=
  C9_editPost_ignores_deadline
    ⟨[⟨"p2", "t", "old", none, 100, "u1"⟩], [("p2", 0)]⟩
    ⟨"p2", "late", "img"⟩ 101 0 ⟨"p2", "t", "old", none, 100, "u1"⟩
    ⟨by decide, by decide⟩ rfl rfl (by decide)

/-- C7 (amended): for the in-memory backend, when the final `put` of
EditPost fails the error is surfaced, but the repository-observable state
is not the pre-usecase state: the looked-up post aliases the stored
object, so the in-place mutation of description and image is already
visible through the repository even though no `put` occurred. -/
theorem C7_edit_aliasing_on_failed_put (σ : MemoryPostRepository)
    (input : EditPostUsecaseInput) (r : Ref) (e : PostEntity)
    (hr : σ.findById input.postId = some r) (he : σ.deref r = some e) :
    (EditPostUsecaseInteractor.handlePutFails σ input).2 =
        Except.error "put failed" ∧
    (EditPostUsecaseInteractor.handlePutFails σ input).1 =
      ⟨σ.heap.set r { e with description := input.description, image := some input.image }, σ.posts⟩ ∧
    ((EditPostUsecaseInteractor.handlePutFails σ input).1).deref r =
      some { e with description := input.description, image := some input.image } := by
  have he' : σ.heap[r]? = some e := he
  have hlen : r < σ.heap.length := (List.getElem?_eq_some.mp he').1
  have h1 : Post.changeImage σ r input.image =
      ⟨σ.heap.set r { e with image := some input.image }, σ.posts⟩ := by
    unfold Post.changeImage
    rw [he']
  have h2 : Post.changeDescription
      ⟨σ.heap.set r { e with image := some input.image }, σ.posts⟩ r
      input.description =
      ⟨σ.heap.set r { e with description := input.description, image := some input.image }, σ.posts⟩ := by
    unfold Post.changeDescription
    simp only [List.getElem?_set_self hlen, List.set_set]
  refine ⟨?_, ?_, ?_⟩ <;>
    simp only [EditPostUsecaseInteractor.handlePutFails, hr, h1, h2,
      MemoryPostRepository.deref, List.getElem?_set_self hlen]

theorem C7_edit_aliasing_on_failed_put_witness :
    (EditPostUsecaseInteractor.handlePutFails
        ⟨[⟨"p3", "t", "old", none, 100, "u1"⟩], [("p3", 0)]⟩
        ⟨"p3", "new", "img"⟩).2 = Except.error "put failed" ∧
    (EditPostUsecaseInteractor.handlePutFails
        ⟨[⟨"p3", "t", "old", none, 100, "u1"⟩], [("p3", 0)]⟩
        ⟨"p3", "new", "img"⟩).1 =
      ⟨[⟨"p3", "t", "old", none, 100, "u1"⟩].set 0
          ⟨"p3", "t", "new", some "img", 100, "u1"⟩, [("p3", 0)]⟩ ∧
    ((EditPostUsecaseInteractor.handlePutFails
        ⟨[⟨"p3", "t", "old", none, 100, "u1"⟩], [("p3", 0)]⟩
        ⟨"p3", "new", "img"⟩).1).deref 0 =
      some ⟨"p3", "t", "new", some "img", 100, "u1"⟩ :=
  C7_edit_aliasing_on_failed_put
    ⟨[⟨"p3", "t", "old", none, 100, "u1"⟩], [("p3", 0)]⟩
    ⟨"p3", "new", "img"⟩ 0 ⟨"p3", "t", "old", none, 100, "u1"⟩ rfl rfl

/-- C7 (counterexample to the claim as stated): a concrete in-memory state
in which EditPost with a failing final `put` leaves the state observable
through the repository different from the state before the usecase began
(the stored post already shows the new description and image). -/
theorem C7_counterexample :
    ((EditPostUsecaseInteractor.handlePutFails
        ⟨[⟨"p1", "t", "old", none, 100, "u1"⟩], [("p1", 0)]⟩
        ⟨"p1", "new", "img"⟩).1.findById "p1").bind
      (EditPostUsecaseInteractor.handlePutFails
        ⟨[⟨"p1", "t", "old", none, 100, "u1"⟩], [("p1", 0)]⟩
        ⟨"p1", "new", "img"⟩).1.deref ≠
    (((⟨[⟨"p1", "t", "old", none, 100, "u1"⟩], [("p1", 0)]⟩ :
        MemoryPostRepository)).findById "p1").bind
      (⟨[⟨"p1", "t", "old", none, 100, "u1"⟩], [("p1", 0)]⟩ :
        MemoryPostRepository).deref := by
  decide

/-- C5: AddNewPost fails with the user-not-found error exactly when no
user with the given id is stored; when the user exists it succeeds and
adds exactly one new post, owned by that user, to the post repository
(the freshly generated UUID not colliding with a stored key). -/
theorem C5_addNewPost (users : List (String × UserDTO))
    (σ : MemoryPostRepository) (freshUuid : String) (now : Nat)
    (input : AddNewPostUsecaseInput) (hwf : σ.WF)
    (hfresh : ∀ e ∈ σ.posts, e.1 ≠ freshUuid) :
    ((∀ u ∈ users, u.1 ≠ input.userId) →
      AddNewPostUsecaseInteractor.handle users σ freshUuid now input =
        .error "User not found") ∧
    (∀ u, MemoryUserRepository.findById users input.userId = some u →
      ∃ σ' post,
        AddNewPostUsecaseInteractor.handle users σ freshUuid now input =
          .ok (σ', post) ∧
        post.owner = input.userId ∧
        σ'.storedPosts = σ.storedPosts ++ [post] ∧
        σ'.storedPosts.length = σ.storedPosts.length + 1) := by
  constructor
  · intro habs
    have hnone : MemoryUserRepository.findById users input.userId = none := by
      unfold MemoryUserRepository.findById
      rw [List.find?_eq_none.mpr]
      · rfl
      · intro u hu
        simpa using habs u hu
    simp only [AddNewPostUsecaseInteractor.handle, hnone, Option.map_none']
  · intro u hu
    have happend :
        (σ.create (PostService.createPost freshUuid now input.userId
          u.personalityClass)).storedPosts =
        σ.storedPosts ++
          [PostService.createPost freshUuid now input.userId
            u.personalityClass] := by
      unfold MemoryPostRepository.create MemoryPostRepository.storedPosts
      simp only
      rw [show (PostService.createPost freshUuid now input.userId
        u.personalityClass).id = freshUuid from rfl]
      rw [mapSet_fresh hfresh, List.filterMap_append]
      congr 1
      · apply List.filterMap_congr
        intro e he
        rcases Option.map_eq_some'.mp (hwf.1 e he) with ⟨p, hp, _⟩
        rcases List.getElem?_eq_some.mp hp with ⟨hlt, _⟩
        exact List.getElem?_append_left hlt
      · simp [List.filterMap_cons, List.getElem?_concat_length]
    refine ⟨σ.create (PostService.createPost freshUuid now input.userId
        u.personalityClass),
      PostService.createPost freshUuid now input.userId u.personalityClass,
      ?_, rfl, happend, ?_⟩
    · simp only [AddNewPostUsecaseInteractor.handle, hu, Option.map_some']
    · rw [happend]
      simp

theorem C5_addNewPost_witness :
    ∃ σ' post,
      AddNewPostUsecaseInteractor.handle
          [("u1", ⟨"u1", ⟨true, false⟩⟩)] ⟨[], []⟩ "f1" 0 ⟨"u1"⟩ =
        .ok (σ', post) ∧
      post.owner = "u1" ∧
      σ'.storedPosts = (⟨[], []⟩ : MemoryPostRepository).storedPosts ++ [post] ∧
      σ'.storedPosts.length =
        (⟨[], []⟩ : MemoryPostRepository).storedPosts.length + 1 :=
  (C5_addNewPost [("u1", ⟨"u1", ⟨true, false⟩⟩)] ⟨[], []⟩ "f1" 0 ⟨"u1"⟩
      ⟨by decide, by decide⟩ (by decide)).2 ⟨"u1", ⟨true, false⟩⟩ rfl
